import Mathlib

/-!
Verification of the LiteX PDM (Pulse Density Modulation) core
(`litex/soc/cores/pdm.py`), shallowly embedded in Lean 4.

The module is a free-running counter whose bit-reversed value is compared
against a duty register every clock cycle; the registered output is 1 when
the reversed counter is below the duty value.  The constructor performs
configuration validation (external duty signal vs. `default_duty`/`with_csr`,
external counter handle and width), and an optional CSR facet feeds the duty
value to the comparator through a `MultiReg` synchronizer.
-/

namespace PDMSpec

/-- Model of a Migen `Signal`: bit width, reset (initial) value and the
`reset_less` flag.  `Signal()` with no arguments is 1 bit wide with reset 0. -/
structure Signal where
  nbits : Nat
  reset : Nat
  resetLess : Bool
deriving DecidableEq, Repr

/-- A Python value passed as the `counter` argument: either an actual
`Signal`, or some non-`Signal` object (which `isinstance` rejects). -/
inductive Arg where
  | sig (s : Signal)
  | nonSignal
deriving DecidableEq, Repr

/-- Embedding of the Migen expression `counter[bits-1::-1]` from
`PDM.__init__`: the slice enumerates bits `bits-1, bits-2, ..., 0` of
`counter` and `Cat` packs them least-significant first, so bit `i` of the
result is bit `bits-1-i` of `counter`. -/
def reversedCounter (counter bits : Nat) : Nat :=
  ∑ i in Finset.range bits, if counter.testBit (bits - 1 - i) then 2 ^ i else 0

/-- Recursive form of the bit reversal: the low bit of `c` becomes the top
bit of the `b+1`-bit result. Used to reason about `reversedCounter`. -/
def bitrevRec : Nat → Nat → Nat
  | _, 0 => 0
  | c, b + 1 => c % 2 * 2 ^ b + bitrevRec (c / 2) b

/-- Embedding of the registered comparator in `PDM.__init__`:
`If(self.counter[bits-1::-1] < duty, out.eq(1)).Else(out.eq(0))`.
This is the per-cycle output as a function of the counter and duty values. -/
def pdmOut (bits counter duty : Nat) : Nat :=
  if reversedCounter counter bits < duty then 1 else 0

/-- Embedding of `self.sync += counter.eq(counter + 1)` on a `bits`-wide
signal: increment truncated to `bits` bits. -/
def counterNext (bits c : Nat) : Nat :=
  (c + 1) % 2 ^ bits

/-- The CSR facet produced by `PDM.add_csr`: the `CSRStorage` register
(`self._duty`), the `MultiReg` stage count `n`, and the destination signal
`self._duty_csr` that feeds the comparator. -/
structure CsrInfo where
  storage : Signal
  depth : Nat
  dest : Signal
deriving DecidableEq, Repr

/-- The attributes of a constructed `PDM` object that the claims are about.
`out` is the `self.out` attribute (set only when the output signal is
internally created); `outSig` is the signal actually driven by the
comparator process; `duty` is the `self.duty` attribute (`None` after
`add_csr`); `compDuty` is the local `duty` variable compared against the
reversed counter; `counterOwned` records whether the module added the
`counter.eq(counter + 1)` increment. -/
structure PDM where
  out : Option Signal
  outSig : Signal
  bits : Nat
  duty : Option Signal
  compDuty : Signal
  counter : Signal
  counterOwned : Bool
  csr : Option CsrInfo
deriving DecidableEq, Repr

/-- Embedding of `PDM.add_csr`: stores the old duty signal as
`self._duty_csr`, clears `self.duty`, creates the `CSRStorage` of width
`self.bits` with the duty signal's reset value, and synchronizes storage to
`_duty_csr` through `MultiReg` with stage count `n`.  The source computes
`n = 0 if getattr(self.sync, "clock_domains") == "sys" else 2`, but in Migen
`getattr(self.sync, "clock_domains")` is a `_ModuleSyncCD` proxy object (the
mechanism behind `self.sync.<domain> += ...`), never a string, so the
comparison with `"sys"` is always `False` and `n` is always 2, whatever
clock domain the module elaborates in.  `dutySig` is the `self.duty` signal
at the time of the call. -/
def addCsr (bits : Nat) (dutySig : Signal) : CsrInfo :=
  { storage := { nbits := bits, reset := dutySig.reset, resetLess := true }
    depth := 2
    dest := dutySig }

/-- Embedding of `PDM.__init__`.  `_cd` is the name of the clock domain the
module elaborates in; it is kept in the interface to state domain-dependent
claims, but `add_csr` never actually consults it (see `addCsr`: line 71's
comparison of a `_ModuleSyncCD` proxy with `"sys"` is constantly `False`).
`bod` is the `bits_or_duty` argument, either an integer width or an
external duty `Signal`.  Raised `ValueError`s become `Except.error`. -/
def pdmInit (out0 : Option Signal) (bod : Sum Nat Signal) (default_duty : Nat)
    (counter0 : Option Arg) (with_csr : Bool) (_cd : String) : Except String PDM :=
  let outSig : Signal := match out0 with
    | none => { nbits := 1, reset := 0, resetLess := false }
    | some s => s
  let outAttr : Option Signal := match out0 with
    | none => some outSig
    | some _ => none
  match bod with
  | .inr s =>
      if default_duty ≠ 0 then
        .error "default_duty can not be set when external duty is supplied"
      else if with_csr then
        .error "with_csr can not be set when external duty is supplied"
      else
        let bits := s.nbits
        match counter0 with
        | none =>
            .ok { out := outAttr, outSig := outSig, bits := bits, duty := some s,
                  compDuty := s,
                  counter := { nbits := bits, reset := 0, resetLess := true },
                  counterOwned := true, csr := none }
        | some .nonSignal => .error "counter must be a Signal"
        | some (.sig cs) =>
            if cs.nbits < bits then .error "counter nbits < bits"
            else
              .ok { out := outAttr, outSig := outSig, bits := bits, duty := some s,
                    compDuty := s, counter := cs, counterOwned := false, csr := none }
  | .inl bits =>
      let dutySig : Signal := { nbits := bits, reset := default_duty, resetLess := false }
      let dutyAttr : Option Signal := if with_csr then none else some dutySig
      let csrInfo : Option CsrInfo := if with_csr then some (addCsr bits dutySig) else none
      match counter0 with
      | none =>
          .ok { out := outAttr, outSig := outSig, bits := bits, duty := dutyAttr,
                compDuty := dutySig,
                counter := { nbits := bits, reset := 0, resetLess := true },
                counterOwned := true, csr := csrInfo }
      | some .nonSignal => .error "counter must be a Signal"
      | some (.sig cs) =>
          if cs.nbits < bits then .error "counter nbits < bits"
          else
            .ok { out := outAttr, outSig := outSig, bits := bits, duty := dutyAttr,
                  compDuty := dutySig, counter := cs, counterOwned := false, csr := csrInfo }

/-- `true` iff construction raised a `ValueError`. -/
def initFails (r : Except String PDM) : Bool :=
  match r with
  | .error _ => true
  | .ok _ => false

/-- The effective `bits` value of a `bits_or_duty` argument: the integer
itself, or the width of the external duty signal. -/
def effBits (bod : Sum Nat Signal) : Nat :=
  match bod with
  | .inl n => n
  | .inr s => s.nbits

/-- The `PDM` object built by `pdmInit none (.inl 4) 5 none true "fast"`:
4-bit duty with CSR facet (the `MultiReg` depth is 2 regardless of the
clock domain).  Used to instantiate the CSR theorems on a concrete
input. -/
def csrExample : PDM :=
  { out := some { nbits := 1, reset := 0, resetLess := false }
    outSig := { nbits := 1, reset := 0, resetLess := false }
    bits := 4
    duty := none
    compDuty := { nbits := 4, reset := 5, resetLess := false }
    counter := { nbits := 4, reset := 0, resetLess := true }
    counterOwned := true
    csr := some { storage := { nbits := 4, reset := 5, resetLess := true }
                  depth := 2
                  dest := { nbits := 4, reset := 5, resetLess := false } } }

/-- The `PDM` object built with an externally supplied output signal:
`pdmInit (some ⟨1, 0, false⟩) (.inl 3) 0 none false "sys"`. -/
def outSuppliedExample : PDM :=
  { out := none
    outSig := { nbits := 1, reset := 0, resetLess := false }
    bits := 3
    duty := some { nbits := 3, reset := 0, resetLess := false }
    compDuty := { nbits := 3, reset := 0, resetLess := false }
    counter := { nbits := 3, reset := 0, resetLess := true }
    counterOwned := true
    csr := none }

/-- The `PDM` object built with the output signal omitted:
`pdmInit none (.inl 3) 0 none false "sys"`. -/
def outOmittedExample : PDM :=
  { out := some { nbits := 1, reset := 0, resetLess := false }
    outSig := { nbits := 1, reset := 0, resetLess := false }
    bits := 3
    duty := some { nbits := 3, reset := 0, resetLess := false }
    compDuty := { nbits := 3, reset := 0, resetLess := false }
    counter := { nbits := 3, reset := 0, resetLess := true }
    counterOwned := true
    csr := none }

/-! ### Properties of the bit reversal -/

lemma bitrevRec_lt : ∀ (n c : Nat), bitrevRec c n < 2 ^ n := by
  intro n
  induction n with
  | zero => intro c; simp [bitrevRec]
  | succ b ih =>
    intro c
    have hr := ih (c / 2)
    have h2 : c % 2 ≤ 1 := by omega
    have h3 : c % 2 * 2 ^ b ≤ 2 ^ b := by
      calc c % 2 * 2 ^ b ≤ 1 * 2 ^ b := Nat.mul_le_mul_right _ h2
        _ = 2 ^ b := one_mul _
    have hx : bitrevRec c (b + 1) = c % 2 * 2 ^ b + bitrevRec (c / 2) b := rfl
    rw [hx, pow_succ]
    linarith

lemma reversedCounter_eq_bitrevRec : ∀ (n c : Nat), reversedCounter c n = bitrevRec c n := by
  intro n
  induction n with
  | zero => intro c; simp [reversedCounter, bitrevRec]
  | succ b ih =>
    intro c
    rw [reversedCounter, Finset.sum_range_succ]
    have hb : b + 1 - 1 - b = 0 := by omega
    rw [hb]
    have hsum : (∑ i in Finset.range b, if c.testBit (b + 1 - 1 - i) then 2 ^ i else 0)
        = reversedCounter (c / 2) b := by
      rw [reversedCounter]
      apply Finset.sum_congr rfl
      intro i hi
      rw [Finset.mem_range] at hi
      have h1 : b + 1 - 1 - i = (b - 1 - i) + 1 := by omega
      rw [h1, ← Nat.testBit_div_two]
    rw [hsum, ih (c / 2)]
    have hx : bitrevRec c (b + 1) = c % 2 * 2 ^ b + bitrevRec (c / 2) b := rfl
    rw [hx, Nat.testBit_zero]
    rcases Nat.mod_two_eq_zero_or_one c with h | h
    · simp [h]
    · simp [h]
      omega

lemma bitrevRec_testBit : ∀ (n i c : Nat), i < n →
    (bitrevRec c n).testBit i = c.testBit (n - 1 - i) := by
  intro n
  induction n with
  | zero => intro i c h; exact absurd h (Nat.not_lt_zero i)
  | succ b ih =>
    intro i c h
    have hr : bitrevRec (c / 2) b < 2 ^ b := bitrevRec_lt b (c / 2)
    have hx : bitrevRec c (b + 1) = c % 2 * 2 ^ b + bitrevRec (c / 2) b := rfl
    by_cases hib : i < b
    · have hmod : (c % 2 * 2 ^ b + bitrevRec (c / 2) b) % 2 ^ b = bitrevRec (c / 2) b := by
        rw [mul_comm, Nat.mul_add_mod, Nat.mod_eq_of_lt hr]
      have h1 : (bitrevRec c (b + 1)).testBit i
          = ((bitrevRec c (b + 1)) % 2 ^ b).testBit i := by
        rw [Nat.testBit_mod_two_pow]
        simp [hib]
      rw [h1, hx, hmod, ih i (c / 2) hib, Nat.testBit_div_two]
      congr 1
      omega
    · have hib' : i = b := by omega
      rw [hib', hx, Nat.testBit_to_div_mod]
      have hdiv : (c % 2 * 2 ^ b + bitrevRec (c / 2) b) / 2 ^ b = c % 2 := by
        rw [mul_comm, Nat.mul_add_div (Nat.two_pow_pos b), Nat.div_eq_of_lt hr, add_zero]
      rw [hdiv]
      have h0 : b + 1 - 1 - b = 0 := by omega
      rw [h0, Nat.testBit_zero]
      have h2 : c % 2 % 2 = c % 2 := by omega
      rw [h2]

lemma bitrevRec_inj : ∀ (n c c' : Nat), c < 2 ^ n → c' < 2 ^ n →
    bitrevRec c n = bitrevRec c' n → c = c' := by
  intro n
  induction n with
  | zero =>
    intro c c' hc hc' _
    simp only [pow_zero, Nat.lt_one_iff] at hc hc'
    omega
  | succ b ih =>
    intro c c' hc hc' heq
    have hr : bitrevRec (c / 2) b < 2 ^ b := bitrevRec_lt b (c / 2)
    have hr' : bitrevRec (c' / 2) b < 2 ^ b := bitrevRec_lt b (c' / 2)
    have hx : bitrevRec c (b + 1) = c % 2 * 2 ^ b + bitrevRec (c / 2) b := rfl
    have hx' : bitrevRec c' (b + 1) = c' % 2 * 2 ^ b + bitrevRec (c' / 2) b := rfl
    rw [hx, hx'] at heq
    have hdiv : (c % 2 * 2 ^ b + bitrevRec (c / 2) b) / 2 ^ b = c % 2 := by
      rw [mul_comm, Nat.mul_add_div (Nat.two_pow_pos b), Nat.div_eq_of_lt hr, add_zero]
    have hdiv' : (c' % 2 * 2 ^ b + bitrevRec (c' / 2) b) / 2 ^ b = c' % 2 := by
      rw [mul_comm, Nat.mul_add_div (Nat.two_pow_pos b), Nat.div_eq_of_lt hr', add_zero]
    have hm : c % 2 = c' % 2 := by rw [← hdiv, ← hdiv', heq]
    have e1 : (c % 2 * 2 ^ b + bitrevRec (c / 2) b) % 2 ^ b = bitrevRec (c / 2) b := by
      rw [mul_comm, Nat.mul_add_mod, Nat.mod_eq_of_lt hr]
    have e2 : (c' % 2 * 2 ^ b + bitrevRec (c' / 2) b) % 2 ^ b = bitrevRec (c' / 2) b := by
      rw [mul_comm, Nat.mul_add_mod, Nat.mod_eq_of_lt hr']
    have hlow : bitrevRec (c / 2) b = bitrevRec (c' / 2) b := by
      rw [← e1, ← e2, heq]
    have hdlt : c / 2 < 2 ^ b := by
      rw [Nat.div_lt_iff_lt_mul (by norm_num : (0 : Nat) < 2)]
      rw [pow_succ] at hc
      exact hc
    have hdlt' : c' / 2 < 2 ^ b := by
      rw [Nat.div_lt_iff_lt_mul (by norm_num : (0 : Nat) < 2)]
      rw [pow_succ] at hc'
      exact hc'
    have hhalf := ih (c / 2) (c' / 2) hdlt hdlt' hlow
    omega

lemma bitrev_image (n : Nat) :
    (Finset.range (2 ^ n)).image (fun c => bitrevRec c n) = Finset.range (2 ^ n) := by
  apply Finset.eq_of_subset_of_card_le
  · intro x hx
    rw [Finset.mem_image] at hx
    obtain ⟨c, _, rfl⟩ := hx
    exact Finset.mem_range.mpr (bitrevRec_lt n c)
  · rw [Finset.card_image_of_injOn]
    intro a ha b hb hab
    simp only [Finset.coe_range, Set.mem_Iio] at ha hb
    exact bitrevRec_inj n a b ha hb hab

lemma card_bitrev_lt (n d : Nat) (hd : d ≤ 2 ^ n) :
    ((Finset.range (2 ^ n)).filter (fun c => bitrevRec c n < d)).card = d := by
  have hinj : Set.InjOn (fun c => bitrevRec c n)
      ↑((Finset.range (2 ^ n)).filter (fun c => bitrevRec c n < d)) := by
    intro a ha b hb hab
    simp only [Finset.coe_filter, Set.mem_setOf_eq, Finset.mem_range] at ha hb
    exact bitrevRec_inj n a b ha.1 hb.1 hab
  have himg := Finset.filter_image (s := Finset.range (2 ^ n))
    (f := fun c => bitrevRec c n) (p := fun x => x < d)
  rw [bitrev_image n] at himg
  have hfr : (Finset.range (2 ^ n)).filter (fun x => x < d) = Finset.range d := by
    ext x
    simp only [Finset.mem_filter, Finset.mem_range]
    omega
  calc ((Finset.range (2 ^ n)).filter (fun c => bitrevRec c n < d)).card
      = (((Finset.range (2 ^ n)).filter (fun c => bitrevRec c n < d)).image
          (fun c => bitrevRec c n)).card := (Finset.card_image_of_injOn hinj).symm
    _ = ((Finset.range (2 ^ n)).filter (fun x => x < d)).card := by rw [← himg]
    _ = d := by rw [hfr, Finset.card_range]

lemma card_filter_window (N c0 : Nat) (hN : 0 < N) (p : Nat → Prop) [DecidablePred p] :
    ((Finset.range N).filter (fun i => p ((c0 + i) % N))).card
      = ((Finset.range N).filter p).card := by
  have hinjall : ∀ a, a < N → ∀ b, b < N → (c0 + a) % N = (c0 + b) % N → a = b := by
    intro a ha b hb hab
    have h1 : a % N = b % N := Nat.ModEq.add_left_cancel' c0 hab
    rwa [Nat.mod_eq_of_lt ha, Nat.mod_eq_of_lt hb] at h1
  have hginj : Set.InjOn (fun i => (c0 + i) % N) ↑(Finset.range N) := by
    intro a ha b hb hab
    simp only [Finset.coe_range, Set.mem_Iio] at ha hb
    exact hinjall a ha b hb hab
  have himage : (Finset.range N).image (fun i => (c0 + i) % N) = Finset.range N := by
    apply Finset.eq_of_subset_of_card_le
    · intro x hx
      rw [Finset.mem_image] at hx
      obtain ⟨i, _, rfl⟩ := hx
      exact Finset.mem_range.mpr (Nat.mod_lt _ hN)
    · rw [Finset.card_image_of_injOn hginj]
  have himg := Finset.filter_image (s := Finset.range N)
    (f := fun i => (c0 + i) % N) (p := p)
  rw [himage] at himg
  have hinj2 : Set.InjOn (fun i => (c0 + i) % N)
      ↑((Finset.range N).filter (fun i => p ((c0 + i) % N))) :=
    hginj.mono (Finset.coe_subset.mpr (Finset.filter_subset _ _))
  calc ((Finset.range N).filter (fun i => p ((c0 + i) % N))).card
      = (((Finset.range N).filter (fun i => p ((c0 + i) % N))).image
          (fun i => (c0 + i) % N)).card := (Finset.card_image_of_injOn hinj2).symm
    _ = ((Finset.range N).filter p).card := by rw [← himg]

lemma pdmOut_eq_one_iff (bits c d : Nat) :
    pdmOut bits c d = 1 ↔ reversedCounter c bits < d := by
  by_cases h : reversedCounter c bits < d <;> simp [pdmOut, h]

lemma pdmOut_eq_zero_iff (bits c d : Nat) :
    pdmOut bits c d = 0 ↔ ¬ reversedCounter c bits < d := by
  by_cases h : reversedCounter c bits < d <;> simp [pdmOut, h]

/-! ### The claims -/

/-- C1: for every bit width `bits ≥ 1`, counter value `c < 2^bits` and duty
value `d < 2^bits`, the per-cycle output is 1 iff the bit-reversal of `c`
over `bits` bits is below `d`, where bit `i` of the reversed value equals
bit `bits-1-i` of `c`.  The output is the pure Lean function `pdmOut`, so
it is deterministic across repeated evaluation by construction. -/
theorem C1_output_iff_bitrev (bits c d i : Nat) (_hb : 1 ≤ bits) (_hc : c < 2 ^ bits)
    (_hd : d < 2 ^ bits) (hi : i < bits) :
    (pdmOut bits c d = 1 ↔ reversedCounter c bits < d)
      ∧ (reversedCounter c bits).testBit i = c.testBit (bits - 1 - i) := by
  refine ⟨pdmOut_eq_one_iff bits c d, ?_⟩
  rw [reversedCounter_eq_bitrevRec bits c]
  exact bitrevRec_testBit bits i c hi

theorem C1_output_iff_bitrev_witness :
    (1 ≤ 3 ∧ 5 < 2 ^ 3 ∧ 3 < 2 ^ 3 ∧ 1 < 3)
      ∧ ((pdmOut 3 5 3 = 1 ↔ reversedCounter 5 3 < 3)
          ∧ (reversedCounter 5 3).testBit 1 = Nat.testBit 5 (3 - 1 - 1)) :=
  ⟨by decide, C1_output_iff_bitrev 3 5 3 1 (by decide) (by decide) (by decide) (by decide)⟩

/-- C2: for every bit width `bits`, duty `d < 2^bits` and window start `c0`,
over the `2^bits` consecutive cycles whose counter values are
`(c0 + i) % 2^bits`, the output is asserted in exactly `d` of them
(bit-reversal is a bijection on `[0, 2^bits)`). -/
theorem C2_window_density (bits d c0 : Nat) (hd : d < 2 ^ bits) :
    ((Finset.range (2 ^ bits)).filter
        (fun i => pdmOut bits ((c0 + i) % 2 ^ bits) d = 1)).card = d := by
  rw [card_filter_window (2 ^ bits) c0 (Nat.two_pow_pos bits)
    (fun c => pdmOut bits c d = 1)]
  have h2 : (Finset.range (2 ^ bits)).filter (fun c => pdmOut bits c d = 1)
      = (Finset.range (2 ^ bits)).filter (fun c => bitrevRec c bits < d) := by
    apply Finset.filter_congr
    intro x _
    rw [pdmOut_eq_one_iff, reversedCounter_eq_bitrevRec]
  rw [h2, card_bitrev_lt bits d (le_of_lt hd)]

theorem C2_window_density_witness :
    3 < 2 ^ 3
      ∧ ((Finset.range (2 ^ 3)).filter
          (fun i => pdmOut 3 ((5 + i) % 2 ^ 3) 3 = 1)).card = 3 :=
  ⟨by decide, C2_window_density 3 3 5 (by decide)⟩

/-- C3: for every bit width `bits` and counter value `c`, the output with
duty 0 is 0: the output is always deasserted. -/
theorem C3_duty_zero_silence (bits c : Nat) : pdmOut bits c 0 = 0 := by
  simp [pdmOut]

/-- C4: for every bit width `bits`, with duty `2^bits - 1` there is exactly
one counter value in `[0, 2^bits)` for which the output is 0. -/
theorem C4_duty_max_single_low (bits : Nat) :
    ((Finset.range (2 ^ bits)).filter
        (fun c => pdmOut bits c (2 ^ bits - 1) = 0)).card = 1 := by
  have h2 : (Finset.range (2 ^ bits)).filter (fun c => pdmOut bits c (2 ^ bits - 1) = 0)
      = (Finset.range (2 ^ bits)).filter (fun c => ¬ bitrevRec c bits < 2 ^ bits - 1) := by
    apply Finset.filter_congr
    intro x _
    rw [pdmOut_eq_zero_iff, reversedCounter_eq_bitrevRec]
  have hpos := Nat.two_pow_pos bits
  rw [h2, Finset.filter_not, Finset.card_sdiff (Finset.filter_subset _ _), Finset.card_range,
    card_bitrev_lt bits (2 ^ bits - 1) (by omega)]
  omega

/-- C5: when no external counter is supplied (the generator owns it), the
created counter signal is `bits` wide with reset (initial) value 0, the
increment process is added, and the registered increment wraps: from
`c + 1 < 2^bits` the next value is `c + 1`, and from `2^bits - 1` the next
value is 0. -/
theorem C5_counter_increment (bits dd c : Nat) (out0 : Option Signal) (csr : Bool)
    (cd : String) (hc : c + 1 < 2 ^ bits) :
    (pdmInit out0 (.inl bits) dd none csr cd).map
        (fun st => (st.counter.nbits, st.counter.reset, st.counterOwned))
      = .ok (bits, 0, true)
    ∧ counterNext bits c = c + 1
    ∧ counterNext bits (2 ^ bits - 1) = 0 := by
  refine ⟨rfl, ?_, ?_⟩
  · rw [counterNext]
    exact Nat.mod_eq_of_lt hc
  · rw [counterNext]
    have hpos := Nat.two_pow_pos bits
    have h1 : 2 ^ bits - 1 + 1 = 2 ^ bits := by omega
    rw [h1, Nat.mod_self]

theorem C5_counter_increment_witness :
    5 + 1 < 2 ^ 3
      ∧ ((pdmInit none (.inl 3) 0 none false "sys").map
            (fun st => (st.counter.nbits, st.counter.reset, st.counterOwned))
          = .ok (3, 0, true)
        ∧ counterNext 3 5 = 5 + 1
        ∧ counterNext 3 (2 ^ 3 - 1) = 0) :=
  ⟨by decide, C5_counter_increment 3 0 5 none false "sys" (by decide)⟩

/-- C6: with an externally supplied duty signal, construction raises a
`ValueError` when `default_duty` is nonzero, and when `with_csr` is set.
In the embedding all these failures are values of `pdmInit`, i.e. they
occur at construction time; the per-cycle function `pdmOut` is total. -/
theorem C6_external_duty_errors (out0 : Option Signal) (s : Signal) (dd : Nat)
    (counter0 : Option Arg) (csr : Bool) (cd : String)
    (h : dd ≠ 0 ∨ csr = true) :
    initFails (pdmInit out0 (.inr s) dd counter0 csr cd) = true := by
  rcases h with h | h
  · simp [pdmInit, initFails, h]
  · by_cases hd : dd = 0
    · simp [pdmInit, initFails, hd, h]
    · simp [pdmInit, initFails, hd]

theorem C6_external_duty_errors_witness :
    ((1 : Nat) ≠ 0 ∨ false = true)
      ∧ initFails (pdmInit none (.inr ⟨8, 0, false⟩) 1 none false "sys") = true :=
  ⟨Or.inl (by decide), C6_external_duty_errors none ⟨8, 0, false⟩ 1 none false "sys"
    (Or.inl (by decide))⟩

/-- C7 as stated is refuted by this counterexample: an externally supplied
counter of width 8 with `effBits = 8` (so width ≥ bits), yet construction
fails, because `default_duty = 1` together with an external duty signal is
rejected before the counter is examined. -/
theorem C7_claim_counterexample :
    effBits (.inr ⟨8, 0, false⟩) ≤ (⟨8, 0, false⟩ : Signal).nbits
      ∧ initFails
          (pdmInit none (.inr ⟨8, 0, false⟩) 1 (some (.sig ⟨8, 0, false⟩)) false "sys")
        = true :=
  ⟨by decide, rfl⟩

/-- C7 (amended): for every construction with an externally supplied
counter whose duty configuration is itself valid (integer `bits_or_duty`,
or external duty signal with `default_duty = 0` and `with_csr` unset),
construction fails when the supplied counter is not a signal handle, fails
when its width is below `bits`, and otherwise succeeds with the external
counter used as-is. -/
theorem C7_counter_validation (out0 : Option Signal) (bod : Sum Nat Signal) (dd : Nat)
    (cs : Signal) (csr : Bool) (cd : String)
    (hduty : bod.isLeft = true ∨ (dd = 0 ∧ csr = false)) :
    initFails (pdmInit out0 bod dd (some .nonSignal) csr cd) = true
    ∧ (cs.nbits < effBits bod →
        initFails (pdmInit out0 bod dd (some (.sig cs)) csr cd) = true)
    ∧ (effBits bod ≤ cs.nbits →
        (pdmInit out0 bod dd (some (.sig cs)) csr cd).map (fun st => st.counter)
          = .ok cs) := by
  cases bod with
  | inl n =>
    refine ⟨rfl, ?_, ?_⟩
    · intro hw
      simp only [effBits] at hw
      simp [pdmInit, initFails, hw]
    · intro hw
      simp only [effBits] at hw
      simp [pdmInit, Except.map, Nat.not_lt.mpr hw]
  | inr s =>
    rcases hduty with h | ⟨hdd, hcsr⟩
    · simp [Sum.isLeft] at h
    · subst hdd
      subst hcsr
      refine ⟨?_, ?_, ?_⟩
      · simp [pdmInit, initFails]
      · intro hw
        simp only [effBits] at hw
        simp [pdmInit, initFails, hw]
      · intro hw
        simp only [effBits] at hw
        simp [pdmInit, Except.map, Nat.not_lt.mpr hw]

theorem C7_counter_validation_witness :
    ((Sum.inl 8 : Sum Nat Signal).isLeft = true ∨ ((0 : Nat) = 0 ∧ false = false))
      ∧ (initFails (pdmInit none (.inl 8) 0 (some .nonSignal) false "sys") = true
        ∧ ((⟨4, 0, false⟩ : Signal).nbits < effBits (.inl 8) →
            initFails (pdmInit none (.inl 8) 0 (some (.sig ⟨4, 0, false⟩)) false "sys")
              = true)
        ∧ (effBits (.inl 8) ≤ (⟨4, 0, false⟩ : Signal).nbits →
            (pdmInit none (.inl 8) 0 (some (.sig ⟨4, 0, false⟩)) false "sys").map
                (fun st => st.counter)
              = .ok ⟨4, 0, false⟩)) :=
  ⟨Or.inl (by decide),
    C7_counter_validation none (.inl 8) 0 ⟨4, 0, false⟩ false "sys" (Or.inl (by decide))⟩

/-- C8 names a behavior the program does not have: it claims synchronizer
depth 0 when the register interface's clock domain equals the comparator's
operating domain.  Line 71's `n = 0 if getattr(self.sync, "clock_domains")
== "sys" else 2` compares a `_ModuleSyncCD` proxy object with a string,
which is always `False`, so the depth is 2 even for a module elaborated in
the `"sys"` domain.  This theorem evaluates the embedded code at exactly
that same-domain construction: the duty signal fed to the comparator is the
CSR storage through a `MultiReg` of depth 2, not 0. -/
theorem C8_depth_two_in_sys_domain :
    pdmInit none (.inl 4) 5 none true "sys" = .ok csrExample
    ∧ csrExample.csr.map CsrInfo.depth = some 2
    ∧ csrExample.csr.map CsrInfo.dest = some csrExample.compDuty
    ∧ csrExample.csr.map (fun i => i.storage.nbits) = some 4 :=
  ⟨rfl, rfl, rfl, rfl⟩

/-- C9: in every successful construction with `with_csr`, the `duty`
attribute is cleared (`None`, no longer externally writable) and the CSR
facet is present, its synchronizer driving the comparator's duty signal. -/
theorem C9_duty_not_writable (bits dd : Nat) (out0 : Option Signal) (counter0 : Option Arg)
    (cd : String) (st : PDM)
    (h : pdmInit out0 (.inl bits) dd counter0 true cd = .ok st) :
    st.duty = none ∧ st.csr.map CsrInfo.dest = some st.compDuty := by
  cases counter0 with
  | none =>
    simp only [pdmInit] at h
    injection h with h
    subst h
    exact ⟨rfl, rfl⟩
  | some a =>
    cases a with
    | nonSignal => simp [pdmInit] at h
    | sig cs =>
      simp only [pdmInit] at h
      by_cases hw : cs.nbits < bits
      · rw [if_pos hw] at h
        exact absurd h (by simp)
      · rw [if_neg hw] at h
        injection h with h
        subst h
        exact ⟨rfl, rfl⟩

theorem C9_duty_not_writable_witness :
    pdmInit none (.inl 4) 5 none true "fast" = .ok csrExample
      ∧ (csrExample.duty = none
        ∧ csrExample.csr.map CsrInfo.dest = some csrExample.compDuty) :=
  ⟨rfl, C9_duty_not_writable 4 5 none none "fast" csrExample rfl⟩

lemma pdmInit_out_supplied (bod : Sum Nat Signal) (dd : Nat) (counter0 : Option Arg)
    (csr : Bool) (cd : String) (s : Signal) (st : PDM)
    (h : pdmInit (some s) bod dd counter0 csr cd = .ok st) :
    st.out = none ∧ st.outSig = s := by
  simp only [pdmInit] at h
  repeat' split at h
  all_goals first
    | exact Except.noConfusion h
    | (injection h with h; subst h; exact ⟨rfl, rfl⟩)

lemma pdmInit_out_omitted (bod : Sum Nat Signal) (dd : Nat) (counter0 : Option Arg)
    (csr : Bool) (cd : String) (st : PDM)
    (h : pdmInit none bod dd counter0 csr cd = .ok st) :
    st.out = some st.outSig
    ∧ st.outSig = { nbits := 1, reset := 0, resetLess := false } := by
  simp only [pdmInit] at h
  repeat' split at h
  all_goals first
    | exact Except.noConfusion h
    | (injection h with h; subst h; exact ⟨rfl, rfl⟩)

/-- C10: the `out` attribute exists on the constructed object only when the
output signal was omitted (and then it is the internally created 1-bit
signal that the registered comparator drives); when the caller supplies an
output signal, that signal is the one driven every cycle (`outSig`, the
target of the `out.eq(...)` assignment in the sync process) and the `out`
attribute is never set. -/
theorem C10_out_attr_frame (bod : Sum Nat Signal) (dd : Nat) (counter0 : Option Arg)
    (csr : Bool) (cd : String) (s : Signal) (st st' : PDM)
    (h : pdmInit (some s) bod dd counter0 csr cd = .ok st)
    (h' : pdmInit none bod dd counter0 csr cd = .ok st') :
    (st.out = none ∧ st.outSig = s)
    ∧ (st'.out = some st'.outSig
      ∧ st'.outSig = { nbits := 1, reset := 0, resetLess := false }) := by
  have h1 := pdmInit_out_supplied bod dd counter0 csr cd s st h
  have h2 := pdmInit_out_omitted bod dd counter0 csr cd st' h'
  exact ⟨h1, h2⟩

theorem C10_out_attr_frame_witness :
    pdmInit (some { nbits := 1, reset := 0, resetLess := false }) (.inl 3) 0 none false "sys"
        = .ok outSuppliedExample
      ∧ pdmInit none (.inl 3) 0 none false "sys" = .ok outOmittedExample
      ∧ ((outSuppliedExample.out = none
          ∧ outSuppliedExample.outSig = { nbits := 1, reset := 0, resetLess := false })
        ∧ (outOmittedExample.out = some outOmittedExample.outSig
          ∧ outOmittedExample.outSig = { nbits := 1, reset := 0, resetLess := false })) :=
  ⟨rfl, rfl,
    C10_out_attr_frame (.inl 3) 0 none false "sys"
      { nbits := 1, reset := 0, resetLess := false }
      outSuppliedExample outOmittedExample rfl rfl⟩

end PDMSpec
